import Mathlib

/-!
# Verification of the xlxd repository against its specification

Shallow embedding of the relevant parts of the krschwab/xlxd sources:
* `xlxc/list.go` — container-list filtering (`dotPrefixMatch`, `shouldShow`);
* the `api10Get` REST handler (trusted/untrusted response bodies,
  trust-password masking);
* the Operation Engine, Event Bus and WebSocket Session Bridge described in
  the specification (their code is not part of the excerpted sources, so they
  are modelled from the specification's words).
-/

namespace Xlxd

/-! ## String helpers (Go `strings` package operations used by `list.go`)

Go strings are modelled as `List Char`; `String` arguments are converted via
`String.data`.  `containsChars`, `splitOnChar`, `splitFirst` and
`isPrefixOfChars` embed `strings.Contains`, `strings.Split`,
`strings.SplitN(s, sep, 2)` and `strings.HasPrefix` respectively. -/

/-- Embeds Go `strings.HasPrefix(full, short)` restricted to char lists:
`isPrefixOfChars sub s` is true iff `sub` is a prefix of `s`. -/
def isPrefixOfChars : List Char → List Char → Bool
  | [], _ => true
  | _ :: _, [] => false
  | a :: as, b :: bs => a == b && isPrefixOfChars as bs

/-- Embeds Go `strings.Contains(hay, sub)`: `sub` occurs as a contiguous
substring of `hay`. -/
def containsChars : List Char → List Char → Bool
  | [], sub => sub.isEmpty
  | a :: rest, sub => isPrefixOfChars sub (a :: rest) || containsChars rest sub

/-- Embeds Go `strings.Split(s, sep)` for a single-character separator:
splits `s` at every occurrence of `c`; the result is never empty. -/
def splitOnChar (c : Char) : List Char → List (List Char)
  | [] => [[]]
  | a :: as =>
    let r := splitOnChar c as
    if a == c then [] :: r
    else
      match r with
      | [] => [[a]]
      | h :: t => (a :: h) :: t

/-- Embeds Go `strings.SplitN(s, sep, 2)` for a single-character separator:
splits at the first occurrence of `c` only. -/
def splitFirst (c : Char) : List Char → List (List Char)
  | [] => [[]]
  | a :: as =>
    if a == c then [[], as]
    else
      match splitFirst c as with
      | [] => [[a]]
      | h :: t => (a :: h) :: t

/-! ## `xlxc/list.go`: `dotPrefixMatch` and `shouldShow` -/

/-- The slice of `shared.ContainerState` that `shouldShow` reads: the
container name and its configuration.  Go's `map[string]string` is modelled
as an association list iterated in list order (Go map iteration order is
unspecified; the embedding fixes one order). -/
structure ContainerState where
  Name : List Char
  Config : List (List Char × List Char)
deriving DecidableEq, Repr

/-- Embeds `dotPrefixMatch(short, full)` from `xlxc/list.go`: both strings
are split on `"."`; the match succeeds iff they have the same number of
members and each member of `short` is a prefix of the corresponding member
of `full`. -/
def dotPrefixMatch (short full : List Char) : Bool :=
  let fullMembs := splitOnChar '.' full
  let shortMembs := splitOnChar '.' short
  if fullMembs.length != shortMembs.length then false
  else (shortMembs.zip fullMembs).all fun p => isPrefixOfChars p.1 p.2

/-- The body of `shouldShow`'s inner config loop: scan the configuration in
order; at the first key matched by `dotPrefixMatch` the filter succeeds iff
the values agree; if no key matches the filter fails. -/
def configMatch (config : List (List Char × List Char)) (key value : List Char) : Bool :=
  match config with
  | [] => false
  | (configKey, configValue) :: rest =>
    if dotPrefixMatch key configKey then value == configValue
    else configMatch rest key value

/-- One iteration of `shouldShow`'s filter loop, for a single filter string:
a `key=value` filter is checked against the configuration, any other filter
is a substring test on the container name. -/
def checkFilter (state : ContainerState) (filter : List Char) : Bool :=
  if containsChars filter ['='] then
    match splitFirst '=' filter with
    | [] => false
    | key :: rest => configMatch state.Config key (rest.headD [])
  else
    containsChars state.Name filter

/-- Embeds `shouldShow(filters, state)` from `xlxc/list.go`: the filter loop
returns `false` at the first failing filter and `true` once all pass. -/
def shouldShow (filters : List (List Char)) (state : ContainerState) : Bool :=
  match filters with
  | [] => true
  | f :: fs => if checkFilter state f then shouldShow fs state else false

theorem shouldShow_nil (state : ContainerState) : shouldShow [] state = true := rfl

theorem shouldShow_cons (state : ContainerState) (f : List Char) (fs : List (List Char)) :
    shouldShow (f :: fs) state = (checkFilter state f && shouldShow fs state) := by
  cases h : checkFilter state f <;> simp [shouldShow, h]

theorem shouldShow_single (state : ContainerState) (f : List Char) :
    shouldShow [f] state = checkFilter state f := by
  rw [shouldShow_cons, shouldShow_nil, Bool.and_true]

/-- C10: `shouldShow` with an empty filter list accepts every container; a
single filter without `=` accepts exactly the containers whose `Name`
contains it as a substring; and a filter list accepts only containers that
every individual filter accepts (filters are conjunctive). -/
theorem C10_shouldShow_semantics (state : ContainerState) (filter : List Char)
    (filters : List (List Char)) (hf : containsChars filter ['='] = false) :
    shouldShow [] state = true
    ∧ (shouldShow [filter] state = true ↔ containsChars state.Name filter = true)
    ∧ (shouldShow filters state = true → ∀ f ∈ filters, shouldShow [f] state = true) := by
  refine ⟨rfl, ?_, ?_⟩
  · rw [shouldShow_single]
    simp [checkFilter, hf]
  · induction filters with
    | nil => intro _ f hmem; cases hmem
    | cons a as ih =>
      intro h f hmem
      rw [shouldShow_cons, Bool.and_eq_true] at h
      rcases List.mem_cons.mp hmem with rfl | hmem2
      · rw [shouldShow_single]; exact h.1
      · exact ih h.2 f hmem2

/-- Witness for C10 at a concrete container and filter. -/
theorem C10_witness :
    shouldShow [] ⟨"myweb2".data, []⟩ = true
    ∧ (shouldShow ["web".data] ⟨"myweb2".data, []⟩ = true
        ↔ containsChars "myweb2".data "web".data = true)
    ∧ (shouldShow ["web".data] ⟨"myweb2".data, []⟩ = true
        → ∀ f ∈ ["web".data], shouldShow [f] ⟨"myweb2".data, []⟩ = true) :=
  C10_shouldShow_semantics ⟨"myweb2".data, []⟩ "web".data ["web".data] (by decide)

/-! ## The `api10Get` REST handler

JSON values (`shared.Jmap` entries) are modelled by `JVal`; a `Jmap` is an
association list in program insertion order (Go maps are unordered; the
embedding fixes the insertion order of the handler).  The `Daemon` structure
holds exactly the data `api10Get` reads: the trust decision for a request,
and the results of the external calls (`syscall.Uname`, `ListenAddresses`,
`ReadCPUInfo`, `ReadMemInfo`, `ConfigValuesGet`), each of which may fail. -/

/-- A JSON value as stored in a `shared.Jmap`. -/
inductive JVal where
  | s : List Char → JVal
  | n : Int → JVal
  | b : Bool → JVal
  | arr : List JVal → JVal
  | obj : List (List Char × JVal) → JVal

/-- A REST response as produced by `api10Get`: either `SyncResponse(success,
body)` or `InternalError(err)`. -/
inductive Response where
  | syncResponse : Bool → List (List Char × JVal) → Response
  | internalError : List Char → Response

/-- The slice of the daemon state read by `api10Get`.  Requests are opaque
(`Nat`); kernel name/release/machine are the NUL-terminated strings already
extracted from `syscall.Utsname`; each fallible collaborator call is an
`Except` capturing its `(value, error)` result. -/
structure Daemon where
  isTrustedClient : Nat → Bool
  unameResult : Except (List Char) (List Char × List Char × List Char)
  listenAddresses : Except (List Char) (List (List Char))
  architectures : List Int
  lxcVersion : List Char
  storageTypeName : List Char
  storageTypeVersion : List Char
  serverPid : Int
  cpuInfo : Except (List Char) (Int × Int)
  memInfo : Except (List Char) Int
  configValuesGet : Except (List Char) (List (List Char × List Char))

/-- Embeds `shared.APICompat` (external constant; its value is irrelevant to
the properties proved here). -/
def APICompat : Int := 1

/-- Embeds `shared.Version` (external constant). -/
def Version : List Char := "0.17".data

/-- Embeds `strconv.Itoa`. -/
def itoa (i : Int) : List Char := (toString i).data

/-- Embeds the `config` loop of `api10Get`: every server-config entry is
copied into the response, except that the key `core.trust_password` is
mapped to the boolean `true` instead of its stored value. -/
def buildConfig (serverConfig : List (List Char × List Char)) : List (List Char × JVal) :=
  serverConfig.map fun kv =>
    if kv.1 = "core.trust_password".data then (kv.1, JVal.b true)
    else (kv.1, JVal.s kv.2)

/-- The `env` map built by `api10Get` for a trusted caller, in source
insertion order. -/
def envMap (d : Daemon) (kernel kernelVersion kernelArchitecture : List Char)
    (addresses : List (List Char)) (numPhysicalCPU numCore memTotal : Int) :
    List (List Char × JVal) :=
  [("addresses".data, .arr (addresses.map .s)),
   ("architectures".data, .arr (d.architectures.map .n)),
   ("driver".data, .s "lxc".data),
   ("driver_version".data, .s d.lxcVersion),
   ("kernel".data, .s kernel),
   ("kernel_architecture".data, .s kernelArchitecture),
   ("kernel_version".data, .s kernelVersion),
   ("storage".data, .s d.storageTypeName),
   ("storage_version".data, .s d.storageTypeVersion),
   ("server".data, .s "lxd".data),
   ("server_pid".data, .n d.serverPid),
   ("server_version".data, .s Version),
   ("processors".data, .s (itoa numPhysicalCPU)),
   ("cores".data, .s (itoa numCore)),
   ("memory".data, .s (itoa memTotal))]

/-- Embeds `api10Get` from the daemon sources: an untrusted caller receives
only `{"api_compat": …, "auth": "untrusted"}`; a trusted caller additionally
receives the server environment and the (password-masked) server config,
with any collaborator failure returned as `InternalError`. -/
def api10Get (d : Daemon) (r : Nat) : Response :=
  if d.isTrustedClient r then
    match d.unameResult with
    | .error e => .internalError e
    | .ok (kernel, kernelVersion, kernelArchitecture) =>
      match d.listenAddresses with
      | .error e => .internalError e
      | .ok addresses =>
        match d.cpuInfo with
        | .error e => .internalError e
        | .ok (numPhysicalCPU, numCore) =>
          match d.memInfo with
          | .error e => .internalError e
          | .ok memTotal =>
            match d.configValuesGet with
            | .error e => .internalError e
            | .ok serverConfig =>
              .syncResponse true
                [("api_compat".data, .n APICompat),
                 ("auth".data, .s "trusted".data),
                 ("environment".data, .obj
                   (envMap d kernel kernelVersion kernelArchitecture addresses
                     numPhysicalCPU numCore memTotal)),
                 ("config".data, .obj (buildConfig serverConfig))]
  else
    .syncResponse true
      [("api_compat".data, .n APICompat),
       ("auth".data, .s "untrusted".data)]

/-- Example daemon A: untrusted for every request. -/
def untrustedDaemonA : Daemon :=
  ⟨fun _ => false, .ok ("Linux".data, "4.4.0".data, "x86_64".data), .ok [],
   [1], "1.1.5".data, "dir".data, "1".data, 7, .ok (1, 2), .ok 1024,
   .ok [("core.https_address".data, "1.2.3.4".data)]⟩

/-- Example daemon B: untrusted, with different environment and config. -/
def untrustedDaemonB : Daemon :=
  ⟨fun _ => false, .ok ("Linux".data, "5.10.0".data, "arm64".data),
   .ok ["10.0.0.1:8443".data],
   [2, 3], "2.0.0".data, "zfs".data, "2".data, 9, .ok (4, 8), .ok 2048,
   .ok [("core.trust_password".data, "hunter2".data)]⟩

/-- C8: the response `api10Get` gives an untrusted caller is exactly
`{"api_compat": APICompat, "auth": "untrusted"}`, and any two untrusted
runs — whatever their server configuration and environment — produce the
same response. -/
theorem C8_untrusted_response (d d' : Daemon) (r r' : Nat)
    (h : d.isTrustedClient r = false) (h' : d'.isTrustedClient r' = false) :
    api10Get d r = .syncResponse true
        [("api_compat".data, .n APICompat), ("auth".data, .s "untrusted".data)]
    ∧ api10Get d r = api10Get d' r' := by
  constructor
  · simp [api10Get, h]
  · simp [api10Get, h, h']

/-- Witness for C8 at two concrete daemons differing in environment and
configuration. -/
theorem C8_witness :
    api10Get untrustedDaemonA 0 = .syncResponse true
        [("api_compat".data, .n APICompat), ("auth".data, .s "untrusted".data)]
    ∧ api10Get untrustedDaemonA 0 = api10Get untrustedDaemonB 1 :=
  C8_untrusted_response untrustedDaemonA untrustedDaemonB 0 1 rfl rfl

/-- Replacing the stored `core.trust_password` value before the `config`
loop runs does not change the loop's output. -/
theorem buildConfig_mask (cfg : List (List Char × List Char)) (w : List Char) :
    buildConfig (cfg.map fun kv =>
      if kv.1 = "core.trust_password".data then (kv.1, w) else kv) = buildConfig cfg := by
  induction cfg with
  | nil => rfl
  | cons a as ih =>
    by_cases h : a.1 = "core.trust_password".data <;>
      simp [buildConfig, h] <;> simpa [buildConfig] using ih

/-- C9: the config map a trusted caller receives from `api10Get` maps
`core.trust_password` to the boolean `true` whenever it is set and every
other key to its stored value, and the full trusted response is unchanged
when only the stored trust-password value differs. -/
theorem C9_trust_password_masked (d : Daemon) (r : Nat)
    (u : List Char × List Char × List Char) (addrs : List (List Char))
    (cpu : Int × Int) (mem : Int) (cfg : List (List Char × List Char)) (w : List Char)
    (ht : d.isTrustedClient r = true)
    (hu : d.unameResult = .ok u) (ha : d.listenAddresses = .ok addrs)
    (hc : d.cpuInfo = .ok cpu) (hm : d.memInfo = .ok mem)
    (hcfg : d.configValuesGet = .ok cfg) :
    (∀ k v, (k, v) ∈ cfg →
        (k = "core.trust_password".data → (k, JVal.b true) ∈ buildConfig cfg)
        ∧ (k ≠ "core.trust_password".data → (k, JVal.s v) ∈ buildConfig cfg))
    ∧ api10Get d r = .syncResponse true
        [("api_compat".data, .n APICompat), ("auth".data, .s "trusted".data),
         ("environment".data, .obj (envMap d u.1 u.2.1 u.2.2 addrs cpu.1 cpu.2 mem)),
         ("config".data, .obj (buildConfig cfg))]
    ∧ api10Get d r = api10Get
        { d with configValuesGet := .ok (cfg.map fun kv =>
            if kv.1 = "core.trust_password".data then (kv.1, w) else kv) } r := by
  obtain ⟨k1, k2, k3⟩ := u
  obtain ⟨c1, c2⟩ := cpu
  refine ⟨?_, ?_, ?_⟩
  · intro k v hmem
    constructor
    · intro hk
      exact List.mem_map.mpr ⟨(k, v), hmem, by simp [hk]⟩
    · intro hk
      exact List.mem_map.mpr ⟨(k, v), hmem, by simp [hk]⟩
  · simp [api10Get, ht, hu, ha, hc, hm, hcfg]
  · simp [api10Get, envMap, ht, hu, ha, hc, hm, hcfg, buildConfig_mask]

/-- A concrete server configuration with the trust password set. -/
def cfgSample : List (List Char × List Char) :=
  [("core.trust_password".data, "hunter2".data),
   ("core.https_address".data, "1.2.3.4".data)]

/-- A concrete daemon that trusts every caller. -/
def trustedDaemon : Daemon :=
  ⟨fun _ => true, .ok ("Linux".data, "4.4.0".data, "x86_64".data), .ok [],
   [1], "1.1.5".data, "dir".data, "1".data, 7, .ok (1, 2), .ok 1024, .ok cfgSample⟩

/-- Witness for C9 at a concrete trusted daemon whose config stores a trust
password. -/
theorem C9_witness :
    (∀ k v, (k, v) ∈ cfgSample →
        (k = "core.trust_password".data → (k, JVal.b true) ∈ buildConfig cfgSample)
        ∧ (k ≠ "core.trust_password".data → (k, JVal.s v) ∈ buildConfig cfgSample))
    ∧ api10Get trustedDaemon 0 = .syncResponse true
        [("api_compat".data, .n APICompat), ("auth".data, .s "trusted".data),
         ("environment".data, .obj (envMap trustedDaemon "Linux".data "4.4.0".data
            "x86_64".data [] 1 2 1024)),
         ("config".data, .obj (buildConfig cfgSample))]
    ∧ api10Get trustedDaemon 0 = api10Get
        { trustedDaemon with configValuesGet := .ok (cfgSample.map fun kv =>
            if kv.1 = "core.trust_password".data then (kv.1, "other".data) else kv) } 0 :=
  C9_trust_password_masked trustedDaemon 0 ("Linux".data, "4.4.0".data, "x86_64".data)
    [] (1, 2) 1024 cfgSample "other".data rfl rfl rfl rfl rfl rfl

/-! ## Operation Registry & Engine, WebSocket Session Bridge

The engine's code is not part of the excerpted sources; the model below is
built from the specification (§3–§5, §7).  Concurrency is rendered as an
interleaving of atomic engine steps on the registry state (the spec places
all mutations under the registry's lock discipline), and the nondeterministic
outcome of a work function — normal return, error return, or panic — is an
explicit parameter of the completion step. -/

/-- Modelled from the spec: the `status` field of an Operation Record
(§3), one of `Pending`, `Running`, `Success`, `Failure`, `Cancelled`. -/
inductive Status where
  | Pending | Running | Success | Failure | Cancelled
deriving DecidableEq, Repr

/-- Terminal states (§4.1): `Success`, `Failure`, `Cancelled`. -/
def Status.isTerminal : Status → Bool
  | .Success | .Failure | .Cancelled => true
  | _ => false

/-- Position of a status along `Pending → Running → terminal`. -/
def Status.rank : Status → Nat
  | .Pending => 0
  | .Running => 1
  | _ => 2

/-- Modelled from the spec: the engine's error taxonomy (§7). -/
inductive EngineError where
  | InvalidResource | NotFound | NotCancelable | Overloaded | Timeout
  | InvalidSecret | OperationNotRunning
deriving DecidableEq, Repr

/-- Modelled from the spec: an Operation Record (§3).  `exclusive` is the
caller's exclusivity mark on its resource claims (§4.1 `Create`). -/
structure Operation where
  id : Nat
  status : Status
  mayCancel : Bool
  exclusive : Bool
  resources : List (List Char)
  metadata : List (List Char × List Char)
  err : Option (List Char)
deriving DecidableEq, Repr

/-- Modelled from the spec: a WebSocket secret binding (§3), keyed by
`(operationId, secret)` with a named stream. -/
structure Secret where
  token : Nat
  opId : Nat
  stream : List Char
deriving DecidableEq, Repr

/-- Modelled from the spec: the process-wide registry state — live
operations, secret bindings, the id generator, and the admission cap
(§5). -/
structure Registry where
  ops : List Operation
  secrets : List Secret
  nextId : Nat
  cap : Nat
deriving DecidableEq, Repr

/-- Lookup of an operation record by id (first match). -/
def findOp (l : List Operation) (i : Nat) : Option Operation :=
  l.find? fun o => o.id == i

/-- `Get(id)`-style snapshot read on the registry. -/
def Registry.find (reg : Registry) (i : Nat) : Option Operation :=
  findOp reg.ops i

/-- An operation is in flight while its status is not terminal. -/
def inFlight (o : Operation) : Bool := !o.status.isTerminal

/-- Modelled from the spec: the resource-conflict test of `Create` (§4.1) —
a new claim over `rs` marked `excl` conflicts with an in-flight operation
that exclusively locks one of the same resource ids. -/
def conflictsWith (rs : List (List Char)) (excl : Bool) (o : Operation) : Bool :=
  inFlight o && excl && o.exclusive && rs.any fun rid => o.resources.contains rid

/-- Modelled from the spec: `Create(resources, workFn, cancelFn?)` (§4.1,
§5): admission-cap check (`Overloaded`), exclusive-resource conflict check
(`InvalidResource`), then allocation of a fresh-id record in `Pending`. -/
def createOp (reg : Registry) (rs : List (List Char)) (excl mayCancel : Bool) :
    Except EngineError (Registry × Nat) :=
  if reg.cap ≤ (reg.ops.filter inFlight).length then .error .Overloaded
  else if reg.ops.any (conflictsWith rs excl) then .error .InvalidResource
  else
    .ok ({ reg with
            ops := reg.ops ++ [⟨reg.nextId, .Pending, mayCancel, excl, rs, [], none⟩],
            nextId := reg.nextId + 1 }, reg.nextId)

/-- Pointwise update of the record with the given id. -/
def updateOp (reg : Registry) (i : Nat) (f : Operation → Operation) : Registry :=
  { reg with ops := reg.ops.map fun o => if o.id == i then f o else o }

/-- The record change made by `Start`: `Pending → Running`. -/
def setRunning (o : Operation) : Operation := { o with status := .Running }

/-- Modelled from the spec: `Start(id)` (§4.1) — transitions
`Pending → Running`. -/
def startOp (reg : Registry) (i : Nat) : Except EngineError Registry :=
  match reg.find i with
  | none => .error .NotFound
  | some o =>
    if o.status = .Pending then .ok (updateOp reg i setRunning)
    else .error .NotFound

/-- Modelled from the spec: the outcome of the single `workFn` invocation —
`(metadata, nil)`, `(_, error)`, or a panic/unexpected fault caught at the
engine boundary (§4.1). -/
inductive WorkOutcome where
  | success : List (List Char × List Char) → WorkOutcome
  | failure : List Char → WorkOutcome
  | panic : WorkOutcome
deriving DecidableEq, Repr

/-- Modelled from the spec: the cause recorded when a panic inside `workFn`
is converted to a `Failure` (§4.1, §7 `InternalFault`). -/
def internalErrorCause : List Char := "internal error".data

/-- Modelled from the spec: the engine's completion step when `workFn`
returns or faults (§4.1, §7): a nil error yields `Success` with the
returned metadata, an error yields `Failure` with the cause recorded, and a
panic is converted to `Failure` with an internal-error cause.  The step is
total — work-function errors are recorded on the record and never thrown
back into the engine's own control flow; a stale result arriving after the
operation already reached a terminal state is discarded. -/
def applyOutcome (out : WorkOutcome) (o : Operation) : Operation :=
  match out with
  | .success md => { o with status := .Success, metadata := md }
  | .failure e => { o with status := .Failure, err := some e }
  | .panic => { o with status := .Failure, err := some internalErrorCause }

/-- The completion step of the engine (see `applyOutcome`). -/
def finishOp (reg : Registry) (i : Nat) (out : WorkOutcome) : Registry :=
  match reg.find i with
  | none => reg
  | some o =>
    if o.status = .Running then updateOp reg i (applyOutcome out)
    else reg

/-- Modelled from the spec: how a cancellation request resolves after the
grace period (§4.1) — the operation reaches `Cancelled`, or `Failure` if
`workFn` observably failed instead of honoring cancellation. -/
inductive CancelOutcome where
  | cancelled : CancelOutcome
  | failed : List Char → CancelOutcome
deriving DecidableEq, Repr

/-- The record change made when a cancellation resolves (see
`CancelOutcome`). -/
def applyCancelOutcome (out : CancelOutcome) (o : Operation) : Operation :=
  match out with
  | .cancelled => { o with status := .Cancelled }
  | .failed e => { o with status := .Failure, err := some e }

/-- Modelled from the spec: `Cancel(id)` (§4.1) — valid only if `mayCancel`
and the status is `Pending` or `Running`; fails with `NotCancelable`
otherwise, leaving the registry untouched. -/
def cancelOp (reg : Registry) (i : Nat) (out : CancelOutcome) :
    Except EngineError Registry :=
  match reg.find i with
  | none => .error .NotFound
  | some o =>
    if o.mayCancel = false then .error .NotCancelable
    else if o.status.isTerminal then .error .NotCancelable
    else .ok (updateOp reg i (applyCancelOutcome out))

/-- Modelled from the spec: `Delete(id)` (§4.1) — allowed only in a
terminal state; removes the record and its associated secrets (a
disallowed delete leaves the registry untouched). -/
def deleteOp (reg : Registry) (i : Nat) : Registry :=
  match reg.find i with
  | none => reg
  | some o =>
    if o.status.isTerminal then
      { reg with
        ops := reg.ops.filter fun x => x.id != i,
        secrets := reg.secrets.filter fun s => s.opId != i }
    else reg

/-- Modelled from the spec: `RegisterSecret(operationId, streamName)` (§4.3)
for one stream — stores a secret binding for the operation. -/
def registerSecret (reg : Registry) (opId : Nat) (stream : List Char) (token : Nat) :
    Registry :=
  { reg with secrets := reg.secrets ++ [⟨token, opId, stream⟩] }

/-- Modelled from the spec: `Upgrade(secret, rawConnection)` (§4.3) —
fails with `InvalidSecret` when the secret is unknown or already consumed
(consumption deletes the binding, §3), with `OperationNotRunning` when the
bound operation is already terminal; otherwise consumes the secret. -/
def upgradeOp (reg : Registry) (token : Nat) : Except EngineError Registry :=
  match reg.secrets.find? (fun s => s.token == token) with
  | none => .error .InvalidSecret
  | some s =>
    match reg.find s.opId with
    | none => .error .OperationNotRunning
    | some o =>
      if o.status.isTerminal then .error .OperationNotRunning
      else .ok { reg with secrets := reg.secrets.filter fun s2 => s2.token != token }

/-- Modelled from the spec: `WaitForStatus(id, timeout)` (§4.1), evaluated
at the instant the wait resolves: an operation already terminal is returned
immediately; otherwise the caller's deadline elapses and a `Timeout` signal
is returned, the operation itself unaffected. -/
def waitForStatus (reg : Registry) (i : Nat) (_timeout : Nat) :
    Except EngineError Operation :=
  match reg.find i with
  | none => .error .NotFound
  | some o => if o.status.isTerminal then .ok o else .error .Timeout

/-- Modelled from the spec: one atomic engine step on the registry (§5);
a step whose engine API call fails synchronously leaves the state
unchanged. -/
inductive Action where
  | create : List (List Char) → Bool → Bool → Action
  | start : Nat → Action
  | finish : Nat → WorkOutcome → Action
  | cancel : Nat → CancelOutcome → Action
  | delete : Nat → Action
  | register : Nat → List Char → Nat → Action
  | upgrade : Nat → Action
deriving DecidableEq, Repr

/-- The state transformation of one engine step: the new registry on
success, the unchanged registry when the call returns an error to its
caller. -/
def applyAction (a : Action) (reg : Registry) : Registry :=
  match a with
  | .create rs excl mayCancel =>
    match createOp reg rs excl mayCancel with
    | .ok (r, _) => r
    | .error _ => reg
  | .start i =>
    match startOp reg i with
    | .ok r => r
    | .error _ => reg
  | .finish i out => finishOp reg i out
  | .cancel i out =>
    match cancelOp reg i out with
    | .ok r => r
    | .error _ => reg
  | .delete i => deleteOp reg i
  | .register opId stream token => registerSecret reg opId stream token
  | .upgrade token =>
    match upgradeOp reg token with
    | .ok r => r
    | .error _ => reg

end Xlxd
namespace Xlxd

theorem findOp_eq_id (l : List Operation) (i : Nat) (o : Operation)
    (h : findOp l i = some o) : o.id = i := by
  rw [findOp] at h
  simpa using List.find?_some h

theorem findOp_append (l l' : List Operation) (i : Nat) (o : Operation)
    (h : findOp l i = some o) : findOp (l ++ l') i = some o := by
  rw [findOp] at h ⊢
  rw [List.find?_append, h]
  rfl

theorem findOp_map (l : List Operation) (i : Nat) (g : Operation → Operation)
    (hg : ∀ o, (g o).id = o.id) :
    findOp (l.map g) i = (findOp l i).map g := by
  have hfun : ((fun o : Operation => o.id == i) ∘ g) = fun o => o.id == i :=
    funext fun o => by simp [Function.comp, hg o]
  rw [findOp, findOp, List.find?_map, hfun]

theorem findOp_filter_other (l : List Operation) (i i' : Nat) (h : ¬ i = i') :
    findOp (l.filter fun x => x.id != i') i = findOp l i := by
  rw [findOp, findOp, List.find?_filter]
  congr 1
  funext a
  by_cases hai : a.id = i
  · subst hai
    simp [h]
  · simp [hai]

theorem findOp_filter_self (l : List Operation) (i' : Nat) :
    findOp (l.filter fun x => x.id != i') i' = none := by
  rw [findOp, List.find?_eq_none]
  intro x hx
  have := (List.mem_filter.mp hx).2
  simp only [bne_iff_ne, ne_eq, decide_eq_true_eq] at this ⊢
  intro hc
  exact this (by simpa using hc)

theorem status_rank_le_two (s : Status) : s.rank ≤ 2 := by
  cases s <;> simp [Status.rank]

theorem setRunning_id (o : Operation) : (setRunning o).id = o.id := rfl

theorem applyOutcome_id (out : WorkOutcome) (o : Operation) :
    (applyOutcome out o).id = o.id := by cases out <;> rfl

theorem applyOutcome_rank (out : WorkOutcome) (o : Operation) :
    (applyOutcome out o).status.rank = 2 := by cases out <;> rfl

theorem applyCancelOutcome_id (out : CancelOutcome) (o : Operation) :
    (applyCancelOutcome out o).id = o.id := by cases out <;> rfl

theorem applyCancelOutcome_rank (out : CancelOutcome) (o : Operation) :
    (applyCancelOutcome out o).status.rank = 2 := by cases out <;> rfl

theorem find_updateOp (reg : Registry) (i' : Nat) (f : Operation → Operation)
    (hf : ∀ o, (f o).id = o.id) (i : Nat) :
    (updateOp reg i' f).find i
      = (reg.find i).map fun o => if o.id == i' then f o else o := by
  rw [Registry.find, Registry.find, updateOp]
  exact findOp_map _ _ _ fun o => by by_cases h : o.id = i' <;> simp [h, hf o]

theorem createOp_ok (reg : Registry) (rs : List (List Char)) (excl mc : Bool)
    (p : Registry × Nat) (h : createOp reg rs excl mc = .ok p) :
    p.1.ops = reg.ops ++ [⟨reg.nextId, .Pending, mc, excl, rs, [], none⟩] := by
  rw [createOp] at h
  split at h
  · cases h
  · split at h
    · cases h
    · cases h
      rfl

theorem startOp_ok (reg : Registry) (i' : Nat) (r : Registry)
    (h : startOp reg i' = .ok r) :
    ∃ o0, reg.find i' = some o0 ∧ o0.status = .Pending
      ∧ r = updateOp reg i' setRunning := by
  rw [startOp] at h
  cases hfind : reg.find i' with
  | none => simp only [hfind] at h; cases h
  | some o0 =>
    simp only [hfind] at h
    split at h
    · exact ⟨o0, rfl, by assumption, (Except.ok.inj h).symm⟩
    · cases h

theorem cancelOp_ok (reg : Registry) (i' : Nat) (out : CancelOutcome) (r : Registry)
    (h : cancelOp reg i' out = .ok r) :
    ∃ o0, reg.find i' = some o0 ∧ o0.mayCancel = true ∧ o0.status.isTerminal = false
      ∧ r = updateOp reg i' (applyCancelOutcome out) := by
  rw [cancelOp] at h
  cases hfind : reg.find i' with
  | none => simp only [hfind] at h; cases h
  | some o0 =>
    simp only [hfind] at h
    split at h
    · cases h
    · split at h
      · cases h
      · refine ⟨o0, rfl, ?_, ?_, (Except.ok.inj h).symm⟩
        · rename_i hmc _
          exact eq_true_of_ne_false hmc
        · rename_i hterm
          exact Bool.eq_false_iff.mpr hterm

theorem upgradeOp_ok (reg : Registry) (token : Nat) (r : Registry)
    (h : upgradeOp reg token = .ok r) :
    r.ops = reg.ops ∧ r.secrets = reg.secrets.filter fun s2 => s2.token != token := by
  rw [upgradeOp] at h
  cases hsec : reg.secrets.find? (fun s => s.token == token) with
  | none => simp only [hsec] at h; cases h
  | some s =>
    simp only [hsec] at h
    cases hfind : reg.find s.opId with
    | none => simp only [hfind] at h; cases h
    | some o0 =>
      simp only [hfind] at h
      split at h
      · cases h
      · cases h
        exact ⟨rfl, rfl⟩

end Xlxd
namespace Xlxd

/-- One engine step never lowers a record's status rank and never moves it
out of a terminal state. -/
theorem applyAction_status_step (a : Action) (reg : Registry) (i : Nat) (o o' : Operation)
    (hb : reg.find i = some o) (ha : (applyAction a reg).find i = some o') :
    o.status.rank ≤ o'.status.rank
    ∧ (o.status.isTerminal = true → o'.status = o.status) := by
  have triv : o' = o →
      o.status.rank ≤ o'.status.rank
      ∧ (o.status.isTerminal = true → o'.status = o.status) := by
    rintro rfl
    exact ⟨Nat.le_refl _, fun _ => rfl⟩
  have hid : o.id = i := findOp_eq_id reg.ops i o hb
  cases a with
  | create rs excl mc =>
    simp only [applyAction] at ha
    cases hc : createOp reg rs excl mc with
    | error e =>
      simp only [hc] at ha
      exact triv (Option.some.inj (ha.symm.trans hb))
    | ok p =>
      simp only [hc] at ha
      have hops := createOp_ok reg rs excl mc p hc
      rw [Registry.find, hops] at ha
      rw [Registry.find] at hb
      rw [findOp_append reg.ops _ i o hb] at ha
      exact triv (Option.some.inj ha.symm)
  | start i' =>
    simp only [applyAction] at ha
    cases hs : startOp reg i' with
    | error e =>
      simp only [hs] at ha
      exact triv (Option.some.inj (ha.symm.trans hb))
    | ok r =>
      simp only [hs] at ha
      obtain ⟨o0, hfind, hpend, hr⟩ := startOp_ok reg i' r hs
      subst hr
      rw [find_updateOp reg i' setRunning setRunning_id i, hb] at ha
      have ho' : o' = if o.id == i' then setRunning o else o :=
        (Option.some.inj ha).symm
      by_cases hii : o.id = i'
      · rw [← hid, hii, hfind] at hb
        have ho0 : o0 = o := Option.some.inj hb
        rw [ho0] at hpend
        rw [ho', if_pos (by simpa using hii)]
        refine ⟨?_, ?_⟩
        · simp [setRunning, hpend, Status.rank]
        · intro ht
          rw [hpend] at ht
          simp [Status.isTerminal] at ht
      · rw [ho', if_neg (by simpa using hii)]
        exact ⟨Nat.le_refl _, fun _ => rfl⟩
  | finish i' out =>
    simp only [applyAction, finishOp] at ha
    cases hfind : reg.find i' with
    | none =>
      simp only [hfind] at ha
      exact triv (Option.some.inj (ha.symm.trans hb))
    | some o0 =>
      simp only [hfind] at ha
      split at ha
      · rename_i hrun
        rw [find_updateOp reg i' (applyOutcome out) (applyOutcome_id out) i, hb] at ha
        have ho' : o' = if o.id == i' then applyOutcome out o else o :=
          (Option.some.inj ha).symm
        by_cases hii : o.id = i'
        · rw [← hid, hii, hfind] at hb
          have ho0 : o0 = o := Option.some.inj hb
          rw [ho0] at hrun
          rw [ho', if_pos (by simpa using hii)]
          refine ⟨?_, ?_⟩
          · rw [applyOutcome_rank]
            exact status_rank_le_two _
          · intro ht
            rw [hrun] at ht
            simp [Status.isTerminal] at ht
        · rw [ho', if_neg (by simpa using hii)]
          exact ⟨Nat.le_refl _, fun _ => rfl⟩
      · exact triv (Option.some.inj (ha.symm.trans hb))
  | cancel i' out =>
    simp only [applyAction] at ha
    cases hs : cancelOp reg i' out with
    | error e =>
      simp only [hs] at ha
      exact triv (Option.some.inj (ha.symm.trans hb))
    | ok r =>
      simp only [hs] at ha
      obtain ⟨o0, hfind, hmc, hterm, hr⟩ := cancelOp_ok reg i' out r hs
      subst hr
      rw [find_updateOp reg i' (applyCancelOutcome out) (applyCancelOutcome_id out) i,
        hb] at ha
      have ho' : o' = if o.id == i' then applyCancelOutcome out o else o :=
        (Option.some.inj ha).symm
      by_cases hii : o.id = i'
      · rw [← hid, hii, hfind] at hb
        have ho0 : o0 = o := Option.some.inj hb
        rw [ho0] at hterm
        rw [ho', if_pos (by simpa using hii)]
        refine ⟨?_, ?_⟩
        · rw [applyCancelOutcome_rank]
          exact status_rank_le_two _
        · intro ht
          rw [ht] at hterm
          cases hterm
      · rw [ho', if_neg (by simpa using hii)]
        exact ⟨Nat.le_refl _, fun _ => rfl⟩
  | delete i' =>
    simp only [applyAction, deleteOp] at ha
    cases hfind : reg.find i' with
    | none =>
      simp only [hfind] at ha
      exact triv (Option.some.inj (ha.symm.trans hb))
    | some o0 =>
      simp only [hfind] at ha
      split at ha
      · by_cases hii : i = i'
        · rw [Registry.find] at ha
          dsimp only at ha
          rw [hii, findOp_filter_self] at ha
          cases ha
        · rw [Registry.find] at ha
          dsimp only at ha
          rw [findOp_filter_other reg.ops i i' hii] at ha
          rw [Registry.find] at hb
          exact triv (Option.some.inj (ha.symm.trans hb))
      · exact triv (Option.some.inj (ha.symm.trans hb))
  | register opId stream token =>
    simp only [applyAction, registerSecret] at ha
    rw [Registry.find] at ha
    dsimp only at ha
    rw [Registry.find] at hb
    exact triv (Option.some.inj (ha.symm.trans hb))
  | upgrade token =>
    simp only [applyAction] at ha
    cases hu : upgradeOp reg token with
    | error e =>
      simp only [hu] at ha
      exact triv (Option.some.inj (ha.symm.trans hb))
    | ok r =>
      simp only [hu] at ha
      obtain ⟨hops, -⟩ := upgradeOp_ok reg token r hu
      rw [Registry.find, hops] at ha
      rw [Registry.find] at hb
      exact triv (Option.some.inj (ha.symm.trans hb))

end Xlxd
namespace Xlxd

/-- Id discipline of the registry: every stored id was drawn from the
generator, so `Create` never reuses the id of a live or deleted record. -/
def wf (reg : Registry) : Prop := ∀ o ∈ reg.ops, o.id < reg.nextId

/-- A whole run of the engine: a sequence of atomic steps. -/
def applyActions (as : List Action) (reg : Registry) : Registry :=
  as.foldl (fun r a => applyAction a r) reg

theorem applyActions_cons (a : Action) (as : List Action) (reg : Registry) :
    applyActions (a :: as) reg = applyActions as (applyAction a reg) := rfl

theorem createOp_ok_reg (reg : Registry) (rs : List (List Char)) (excl mc : Bool)
    (p : Registry × Nat) (h : createOp reg rs excl mc = .ok p) :
    p.1 = { reg with
            ops := reg.ops ++ [⟨reg.nextId, .Pending, mc, excl, rs, [], none⟩],
            nextId := reg.nextId + 1 } := by
  rw [createOp] at h
  split at h
  · cases h
  · split at h
    · cases h
    · cases h
      rfl

theorem applyAction_nextId (a : Action) (reg : Registry) :
    reg.nextId ≤ (applyAction a reg).nextId := by
  cases a with
  | create rs excl mc =>
    simp only [applyAction]
    cases hc : createOp reg rs excl mc with
    | error e => exact Nat.le_refl _
    | ok p =>
      obtain ⟨r, rid⟩ := p
      have hr := createOp_ok_reg reg rs excl mc (r, rid) hc
      dsimp only at hr
      show reg.nextId ≤ r.nextId
      rw [hr]
      exact Nat.le_succ _
  | start i' =>
    simp only [applyAction]
    cases hs : startOp reg i' with
    | error e => exact Nat.le_refl _
    | ok r =>
      obtain ⟨o0, _, _, hr⟩ := startOp_ok reg i' r hs
      subst hr
      exact Nat.le_refl _
  | finish i' out =>
    simp only [applyAction, finishOp]
    cases hfind : reg.find i' with
    | none => exact Nat.le_refl _
    | some o0 =>
      simp only [hfind]
      split
      · exact Nat.le_refl _
      · exact Nat.le_refl _
  | cancel i' out =>
    simp only [applyAction]
    cases hs : cancelOp reg i' out with
    | error e => exact Nat.le_refl _
    | ok r =>
      obtain ⟨o0, _, _, _, hr⟩ := cancelOp_ok reg i' out r hs
      subst hr
      exact Nat.le_refl _
  | delete i' =>
    simp only [applyAction, deleteOp]
    cases hfind : reg.find i' with
    | none => exact Nat.le_refl _
    | some o0 =>
      simp only [hfind]
      split
      · exact Nat.le_refl _
      · exact Nat.le_refl _
  | register opId stream token => exact Nat.le_refl _
  | upgrade token =>
    simp only [applyAction]
    cases hu : upgradeOp reg token with
    | error e => exact Nat.le_refl _
    | ok r =>
      rw [upgradeOp] at hu
      cases hsec : reg.secrets.find? (fun s => s.token == token) with
      | none => simp only [hsec] at hu; cases hu
      | some s =>
        simp only [hsec] at hu
        cases hfind : reg.find s.opId with
        | none => simp only [hfind] at hu; cases hu
        | some o0 =>
          simp only [hfind] at hu
          split at hu
          · cases hu
          · cases hu
            exact Nat.le_refl _

theorem wf_applyAction (a : Action) (reg : Registry) (h : wf reg) :
    wf (applyAction a reg) := by
  cases a with
  | create rs excl mc =>
    simp only [applyAction]
    cases hc : createOp reg rs excl mc with
    | error e => exact h
    | ok p =>
      obtain ⟨r, rid⟩ := p
      have hr := createOp_ok_reg reg rs excl mc (r, rid) hc
      dsimp only at hr
      show wf r
      rw [hr]
      intro o ho
      rcases List.mem_append.mp ho with hmem | hnew
      · exact Nat.lt_succ_of_lt (h o hmem)
      · rw [List.mem_singleton.mp hnew]
        exact Nat.lt_succ_self _
  | start i' =>
    simp only [applyAction]
    cases hs : startOp reg i' with
    | error e => exact h
    | ok r =>
      obtain ⟨o0, _, _, hr⟩ := startOp_ok reg i' r hs
      subst hr
      intro o ho
      obtain ⟨x, hx, hgx⟩ := List.mem_map.mp ho
      rw [← hgx]
      show (if x.id == i' then setRunning x else x).id < reg.nextId
      by_cases hxi : x.id = i'
      · rw [if_pos (by simpa using hxi), setRunning_id]
        exact h x hx
      · rw [if_neg (by simpa using hxi)]
        exact h x hx
  | finish i' out =>
    simp only [applyAction, finishOp]
    cases hfind : reg.find i' with
    | none => exact h
    | some o0 =>
      simp only [hfind]
      split
      · intro o ho
        obtain ⟨x, hx, hgx⟩ := List.mem_map.mp ho
        rw [← hgx]
        show (if x.id == i' then applyOutcome out x else x).id < reg.nextId
        by_cases hxi : x.id = i'
        · rw [if_pos (by simpa using hxi), applyOutcome_id]
          exact h x hx
        · rw [if_neg (by simpa using hxi)]
          exact h x hx
      · exact h
  | cancel i' out =>
    simp only [applyAction]
    cases hs : cancelOp reg i' out with
    | error e => exact h
    | ok r =>
      obtain ⟨o0, _, _, _, hr⟩ := cancelOp_ok reg i' out r hs
      subst hr
      intro o ho
      obtain ⟨x, hx, hgx⟩ := List.mem_map.mp ho
      rw [← hgx]
      show (if x.id == i' then applyCancelOutcome out x else x).id < reg.nextId
      by_cases hxi : x.id = i'
      · rw [if_pos (by simpa using hxi), applyCancelOutcome_id]
        exact h x hx
      · rw [if_neg (by simpa using hxi)]
        exact h x hx
  | delete i' =>
    simp only [applyAction, deleteOp]
    cases hfind : reg.find i' with
    | none => exact h
    | some o0 =>
      simp only [hfind]
      split
      · intro o ho
        exact h o (List.mem_of_mem_filter ho)
      · exact h
  | register opId stream token => exact h
  | upgrade token =>
    simp only [applyAction]
    cases hu : upgradeOp reg token with
    | error e => exact h
    | ok r =>
      obtain ⟨hops, -⟩ := upgradeOp_ok reg token r hu
      intro o ho
      rw [hops] at ho
      have hnext : r.nextId = reg.nextId := by
        rw [upgradeOp] at hu
        cases hsec : reg.secrets.find? (fun s => s.token == token) with
        | none => simp only [hsec] at hu; cases hu
        | some s =>
          simp only [hsec] at hu
          cases hfind : reg.find s.opId with
          | none => simp only [hfind] at hu; cases hu
          | some o0 =>
            simp only [hfind] at hu
            split at hu
            · cases hu
            · cases hu
              rfl
      rw [hnext]
      exact h o ho

end Xlxd
namespace Xlxd

theorem findOp_filter_none (l : List Operation) (i : Nat) (q : Operation → Bool)
    (h : findOp l i = none) : findOp (l.filter q) i = none := by
  rw [findOp, List.find?_eq_none] at h ⊢
  intro x hx
  exact h x (List.mem_of_mem_filter hx)

theorem find_none_step (a : Action) (reg : Registry) (i : Nat)
    (hn : reg.find i = none) (hlt : i < reg.nextId) :
    (applyAction a reg).find i = none := by
  cases a with
  | create rs excl mc =>
    simp only [applyAction]
    cases hc : createOp reg rs excl mc with
    | error e => exact hn
    | ok p =>
      obtain ⟨r, rid⟩ := p
      have hr := createOp_ok_reg reg rs excl mc (r, rid) hc
      dsimp only at hr
      show r.find i = none
      rw [hr, Registry.find]
      dsimp only
      rw [findOp, List.find?_append]
      rw [Registry.find, findOp] at hn
      rw [hn]
      show List.find? (fun o => o.id == i)
        [(⟨reg.nextId, .Pending, mc, excl, rs, [], none⟩ : Operation)] = none
      rw [List.find?_eq_none]
      intro x hx
      rw [List.mem_singleton.mp hx]
      simp only [beq_iff_eq]
      exact Nat.ne_of_gt hlt
  | start i' =>
    simp only [applyAction]
    cases hs : startOp reg i' with
    | error e => exact hn
    | ok r =>
      obtain ⟨o0, _, _, hr⟩ := startOp_ok reg i' r hs
      subst hr
      rw [find_updateOp reg i' setRunning setRunning_id i, hn]
      rfl
  | finish i' out =>
    simp only [applyAction, finishOp]
    cases hfind : reg.find i' with
    | none => exact hn
    | some o0 =>
      simp only [hfind]
      split
      · rw [find_updateOp reg i' (applyOutcome out) (applyOutcome_id out) i, hn]
        rfl
      · exact hn
  | cancel i' out =>
    simp only [applyAction]
    cases hs : cancelOp reg i' out with
    | error e => exact hn
    | ok r =>
      obtain ⟨o0, _, _, _, hr⟩ := cancelOp_ok reg i' out r hs
      subst hr
      rw [find_updateOp reg i' (applyCancelOutcome out) (applyCancelOutcome_id out) i, hn]
      rfl
  | delete i' =>
    simp only [applyAction, deleteOp]
    cases hfind : reg.find i' with
    | none => exact hn
    | some o0 =>
      simp only [hfind]
      split
      · show findOp (reg.ops.filter fun x => x.id != i') i = none
        exact findOp_filter_none reg.ops i _ hn
      · exact hn
  | register opId stream token => exact hn
  | upgrade token =>
    simp only [applyAction]
    cases hu : upgradeOp reg token with
    | error e => exact hn
    | ok r =>
      obtain ⟨hops, -⟩ := upgradeOp_ok reg token r hu
      rw [Registry.find, hops]
      exact hn

theorem find_none_trace (as : List Action) (reg : Registry) (i : Nat)
    (hn : reg.find i = none) (hlt : i < reg.nextId) :
    (applyActions as reg).find i = none := by
  induction as generalizing reg with
  | nil => exact hn
  | cons a as ih =>
    rw [applyActions_cons]
    exact ih (applyAction a reg) (find_none_step a reg i hn hlt)
      (Nat.lt_of_lt_of_le hlt (applyAction_nextId a reg))

theorem trace_status_aux : ∀ (as : List Action) (reg : Registry) (i : Nat)
    (o o' : Operation), wf reg → reg.find i = some o →
    (applyActions as reg).find i = some o' →
    o.status.rank ≤ o'.status.rank
    ∧ (o.status.isTerminal = true → o'.status = o.status) := by
  intro as
  induction as with
  | nil =>
    intro reg i o o' _ hb ha
    have he : o' = o := Option.some.inj (ha.symm.trans hb)
    rw [he]
    exact ⟨Nat.le_refl _, fun _ => rfl⟩
  | cons a as ih =>
    intro reg i o o' hwf hb ha
    rw [applyActions_cons] at ha
    cases h1 : (applyAction a reg).find i with
    | none =>
      have hmem : o ∈ reg.ops := List.mem_of_find?_eq_some hb
      have hido : o.id = i := findOp_eq_id reg.ops i o hb
      have hlt : i < reg.nextId := hido ▸ hwf o hmem
      have hlt1 : i < (applyAction a reg).nextId :=
        Nat.lt_of_lt_of_le hlt (applyAction_nextId a reg)
      rw [find_none_trace as (applyAction a reg) i h1 hlt1] at ha
      cases ha
    | some o1 =>
      have step := applyAction_status_step a reg i o o1 hb h1
      have rest := ih (applyAction a reg) i o1 o' (wf_applyAction a reg hwf) h1 ha
      refine ⟨Nat.le_trans step.1 rest.1, ?_⟩
      intro ht
      have h1s : o1.status = o.status := step.2 ht
      have : o'.status = o1.status := rest.2 (h1s ▸ ht)
      rw [this, h1s]

end Xlxd
namespace Xlxd

/-- C1: over any run of engine steps, an operation's status only moves
forward along `Pending → Running → {Success, Failure, Cancelled}`, and once
it is terminal no later step ever changes it. -/
theorem C1_status_monotone (as : List Action) (reg : Registry) (i : Nat)
    (o o' : Operation) (hwf : wf reg) (hb : reg.find i = some o)
    (ha : (applyActions as reg).find i = some o') :
    o.status.rank ≤ o'.status.rank
    ∧ (o.status.isTerminal = true → o'.status = o.status) :=
  trace_status_aux as reg i o o' hwf hb ha

/-- A one-operation registry used as a concrete run. -/
def regC1 : Registry := ⟨[⟨0, .Pending, false, false, [], [], none⟩], [], 1, 4⟩

/-- Witness for C1 on a concrete run: start, then a work-function panic. -/
theorem C1_witness :
    (⟨0, .Pending, false, false, [], [], none⟩ : Operation).status.rank
      ≤ (⟨0, .Failure, false, false, [], [], some internalErrorCause⟩ : Operation).status.rank
    ∧ ((⟨0, .Pending, false, false, [], [], none⟩ : Operation).status.isTerminal = true →
        (⟨0, .Failure, false, false, [], [], some internalErrorCause⟩ : Operation).status
          = (⟨0, .Pending, false, false, [], [], none⟩ : Operation).status) :=
  C1_status_monotone [.start 0, .finish 0 .panic] regC1 0 _ _
    (by unfold wf; decide) (by decide) (by decide)

end Xlxd
namespace Xlxd

/-- C2: a panic inside `workFn` is caught at the engine boundary and
converted: the operation transitions to `Failure` with the internal-error
cause recorded in `err`.  The completion step itself is a total function on
registries — the fault is recorded on the record, never propagated to the
engine's callers. -/
theorem C2_panic_converted (reg : Registry) (i : Nat) (o : Operation)
    (hb : reg.find i = some o) (hrun : o.status = .Running) :
    (finishOp reg i .panic).find i
      = some { o with status := .Failure, err := some internalErrorCause } := by
  have hid : o.id = i := findOp_eq_id reg.ops i o hb
  rw [finishOp]
  simp only [hb]
  rw [if_pos hrun]
  rw [find_updateOp reg i (applyOutcome .panic) (applyOutcome_id .panic) i, hb]
  show some (if o.id == i then applyOutcome .panic o else o) = _
  rw [if_pos (by simpa using hid)]
  rfl

/-- Witness for C2 at a concrete running operation. -/
theorem C2_witness :
    (finishOp ⟨[⟨0, .Running, false, false, [], [], none⟩], [], 1, 4⟩ 0 .panic).find 0
      = some ⟨0, .Failure, false, false, [], [], some internalErrorCause⟩ :=
  C2_panic_converted ⟨[⟨0, .Running, false, false, [], [], none⟩], [], 1, 4⟩ 0
    ⟨0, .Running, false, false, [], [], none⟩ (by decide) (by decide)

/-- No live secret binding carries the given token. -/
def secretAbsent (token : Nat) (reg : Registry) : Bool :=
  reg.secrets.all fun s => s.token != token

theorem secretAbsent_upgrade (r : Registry) (token : Nat)
    (h : secretAbsent token r = true) :
    upgradeOp r token = .error .InvalidSecret := by
  rw [secretAbsent, List.all_eq_true] at h
  have hnone : r.secrets.find? (fun s => s.token == token) = none := by
    rw [List.find?_eq_none]
    intro x hx
    simpa using h x hx
  rw [upgradeOp]
  simp only [hnone]

theorem secretAbsent_filter (l : List Secret) (token : Nat) :
    (l.filter fun s2 => s2.token != token).all (fun s => s.token != token) = true := by
  rw [List.all_eq_true]
  intro x hx
  exact (List.mem_filter.mp hx).2

theorem secretAbsent_step (a : Action) (r : Registry) (token : Nat)
    (h : secretAbsent token r = true)
    (hreg : ∀ opId stream, a ≠ .register opId stream token) :
    secretAbsent token (applyAction a r) = true := by
  cases a with
  | create rs excl mc =>
    simp only [applyAction]
    cases hc : createOp r rs excl mc with
    | error e => exact h
    | ok p =>
      obtain ⟨r1, rid⟩ := p
      have hr := createOp_ok_reg r rs excl mc (r1, rid) hc
      dsimp only at hr
      show secretAbsent token r1 = true
      rw [hr]
      exact h
  | start i' =>
    simp only [applyAction]
    cases hs : startOp r i' with
    | error e => exact h
    | ok r1 =>
      obtain ⟨o0, _, _, hr⟩ := startOp_ok r i' r1 hs
      subst hr
      exact h
  | finish i' out =>
    simp only [applyAction, finishOp]
    cases hfind : r.find i' with
    | none => exact h
    | some o0 =>
      simp only [hfind]
      split
      · exact h
      · exact h
  | cancel i' out =>
    simp only [applyAction]
    cases hs : cancelOp r i' out with
    | error e => exact h
    | ok r1 =>
      obtain ⟨o0, _, _, _, hr⟩ := cancelOp_ok r i' out r1 hs
      subst hr
      exact h
  | delete i' =>
    simp only [applyAction, deleteOp]
    cases hfind : r.find i' with
    | none => exact h
    | some o0 =>
      simp only [hfind]
      split
      · rw [secretAbsent, List.all_eq_true]
        intro x hx
        rw [secretAbsent, List.all_eq_true] at h
        exact h x (List.mem_of_mem_filter hx)
      · exact h
  | register opId stream token' =>
    have hne : token' ≠ token := by
      intro hcontra
      exact hreg opId stream (by rw [hcontra])
    simp only [applyAction, registerSecret, secretAbsent]
    rw [List.all_append]
    rw [secretAbsent] at h
    rw [h]
    simpa using hne
  | upgrade token' =>
    simp only [applyAction]
    cases hu : upgradeOp r token' with
    | error e => exact h
    | ok r1 =>
      obtain ⟨-, hsec⟩ := upgradeOp_ok r token' r1 hu
      rw [secretAbsent, hsec, List.all_eq_true]
      intro x hx
      rw [secretAbsent, List.all_eq_true] at h
      exact h x (List.mem_of_mem_filter hx)

/-- C3: a successful `Upgrade` consumes the secret: immediately replaying
the same secret fails with `InvalidSecret`; the consumed token is absent
from the secret table, absence makes every `Upgrade` with it fail with
`InvalidSecret`, and absence is preserved by every engine step other than a
registration of that very token. -/
theorem C3_secret_single_use (reg : Registry) (token : Nat) (reg' : Registry)
    (h : upgradeOp reg token = .ok reg') :
    upgradeOp reg' token = .error .InvalidSecret
    ∧ secretAbsent token reg' = true
    ∧ (∀ r, secretAbsent token r = true → upgradeOp r token = .error .InvalidSecret)
    ∧ (∀ (a : Action) (r : Registry), secretAbsent token r = true →
        (∀ opId stream, a ≠ .register opId stream token) →
        secretAbsent token (applyAction a r) = true) := by
  have habs : secretAbsent token reg' = true := by
    obtain ⟨-, hsec⟩ := upgradeOp_ok reg token reg' h
    rw [secretAbsent, hsec]
    exact secretAbsent_filter reg.secrets token
  exact ⟨secretAbsent_upgrade reg' token habs, habs,
    fun r hr => secretAbsent_upgrade r token hr,
    fun a r hr hreg => secretAbsent_step a r token hr hreg⟩

/-- A registry with one running operation holding one registered secret. -/
def regC3 : Registry :=
  ⟨[⟨0, .Running, false, false, [], [], none⟩], [⟨42, 0, "0".data⟩], 1, 4⟩

/-- Witness for C3: consuming secret 42 and replaying it. -/
theorem C3_witness :
    upgradeOp ⟨[⟨0, .Running, false, false, [], [], none⟩], [], 1, 4⟩ 42
        = .error .InvalidSecret
    ∧ secretAbsent 42 ⟨[⟨0, .Running, false, false, [], [], none⟩], [], 1, 4⟩ = true
    ∧ (∀ r, secretAbsent 42 r = true → upgradeOp r 42 = .error .InvalidSecret)
    ∧ (∀ (a : Action) (r : Registry), secretAbsent 42 r = true →
        (∀ opId stream, a ≠ .register opId stream 42) →
        secretAbsent 42 (applyAction a r) = true) :=
  C3_secret_single_use regC3 42
    ⟨[⟨0, .Running, false, false, [], [], none⟩], [], 1, 4⟩ rfl

/-- C4: `Cancel` on an operation created without a cancellation function
always fails with `NotCancelable` and leaves the registry — in particular
the operation's status — unchanged. -/
theorem C4_not_cancelable (reg : Registry) (i : Nat) (o : Operation)
    (out : CancelOutcome) (hb : reg.find i = some o) (hmc : o.mayCancel = false) :
    cancelOp reg i out = .error .NotCancelable
    ∧ applyAction (.cancel i out) reg = reg
    ∧ (applyAction (.cancel i out) reg).find i = some o := by
  have h1 : cancelOp reg i out = .error .NotCancelable := by
    rw [cancelOp]
    simp only [hb]
    rw [if_pos hmc]
  have h2 : applyAction (.cancel i out) reg = reg := by
    simp only [applyAction, h1]
  exact ⟨h1, h2, by rw [h2]; exact hb⟩

/-- Witness for C4 at a concrete non-cancellable running operation. -/
theorem C4_witness :
    cancelOp ⟨[⟨0, .Running, false, false, [], [], none⟩], [], 1, 4⟩ 0 .cancelled
        = .error .NotCancelable
    ∧ applyAction (.cancel 0 .cancelled)
        ⟨[⟨0, .Running, false, false, [], [], none⟩], [], 1, 4⟩
        = ⟨[⟨0, .Running, false, false, [], [], none⟩], [], 1, 4⟩
    ∧ (applyAction (.cancel 0 .cancelled)
        ⟨[⟨0, .Running, false, false, [], [], none⟩], [], 1, 4⟩).find 0
        = some ⟨0, .Running, false, false, [], [], none⟩ :=
  C4_not_cancelable ⟨[⟨0, .Running, false, false, [], [], none⟩], [], 1, 4⟩ 0
    ⟨0, .Running, false, false, [], [], none⟩ .cancelled (by decide) (by decide)

/-- C5: `WaitForStatus(id, 0)` on an operation already in a terminal state
returns the terminal record immediately, not a `Timeout` signal. -/
theorem C5_wait_zero_terminal (reg : Registry) (i : Nat) (o : Operation)
    (hb : reg.find i = some o) (hterm : o.status.isTerminal = true) :
    waitForStatus reg i 0 = .ok o := by
  rw [waitForStatus]
  simp only [hb]
  rw [if_pos hterm]

/-- Witness for C5 at a concrete terminal operation. -/
theorem C5_witness :
    waitForStatus ⟨[⟨0, .Success, false, false, [], [], none⟩], [], 1, 4⟩ 0 0
      = .ok ⟨0, .Success, false, false, [], [], none⟩ :=
  C5_wait_zero_terminal ⟨[⟨0, .Success, false, false, [], [], none⟩], [], 1, 4⟩ 0
    ⟨0, .Success, false, false, [], [], none⟩ (by decide) (by decide)

end Xlxd
namespace Xlxd

/-- C7: two `Create` calls that both exclusively claim the same resource id
(run as two atomic admission steps under the registry lock, in either
interleaving): the first succeeds and the second fails with
`InvalidResource` — exactly one succeeds. -/
theorem C7_exclusive_create_conflict (reg : Registry) (rs1 rs2 : List (List Char))
    (mc1 mc2 : Bool) (rid : List Char)
    (hcap : (reg.ops.filter inFlight).length + 1 < reg.cap)
    (hc1 : reg.ops.any (conflictsWith rs1 true) = false)
    (hc2 : reg.ops.any (conflictsWith rs2 true) = false)
    (hr1 : rs1.contains rid = true) (hr2 : rid ∈ rs2) :
    ∃ reg1, createOp reg rs1 true mc1 = .ok (reg1, reg.nextId)
      ∧ createOp reg1 rs2 true mc2 = .error .InvalidResource := by
  have hlen : (reg.ops.filter inFlight).length < reg.cap := Nat.lt_of_succ_lt hcap
  have h1 : createOp reg rs1 true mc1
      = .ok ({ reg with
               ops := reg.ops ++ [⟨reg.nextId, .Pending, mc1, true, rs1, [], none⟩],
               nextId := reg.nextId + 1 }, reg.nextId) := by
    rw [createOp, if_neg (Nat.not_le.mpr hlen), if_neg (by simp [hc1])]
  refine ⟨_, h1, ?_⟩
  have hf : (((reg.ops ++ [(⟨reg.nextId, .Pending, mc1, true, rs1, [], none⟩ : Operation)]).filter
        inFlight)).length = (reg.ops.filter inFlight).length + 1 := by
    rw [List.filter_append]
    simp [inFlight, Status.isTerminal]
  have hconf : ((reg.ops ++ [(⟨reg.nextId, .Pending, mc1, true, rs1, [], none⟩ : Operation)]).any
        (conflictsWith rs2 true)) = true := by
    rw [List.any_append, hc2]
    simp only [Bool.false_or, List.any_cons, List.any_nil, Bool.or_false]
    rw [conflictsWith]
    simp only [inFlight, Status.isTerminal, Bool.not_false, Bool.true_and]
    rw [List.any_eq_true]
    exact ⟨rid, hr2, hr1⟩
  rw [createOp]
  rw [if_neg (show ¬ reg.cap ≤ _ from by
    show ¬ reg.cap ≤ (((reg.ops ++ [(⟨reg.nextId, .Pending, mc1, true, rs1, [], none⟩ : Operation)]).filter inFlight)).length
    rw [hf]
    exact Nat.not_le.mpr hcap)]
  rw [if_pos (show _ = true from hconf)]

/-- Witness for C7: two exclusive creates over container `c1` on an empty
registry. -/
theorem C7_witness :
    ∃ reg1, createOp ⟨[], [], 0, 3⟩ ["c1".data] true false = .ok (reg1, 0)
      ∧ createOp reg1 ["c1".data] true true = .error .InvalidResource :=
  C7_exclusive_create_conflict ⟨[], [], 0, 3⟩ ["c1".data] ["c1".data] false true
    "c1".data (by decide) (by decide) (by decide) (by decide) (by decide)

end Xlxd
namespace Xlxd

/-! ## Event Bus

Modelled from the spec (§4.2, §5): each listener owns a bounded buffer of
capacity `capacity`; `Publish` appends to every listener's buffer when there
is room and otherwise counts a drop for that listener — it never fails and
never waits on a listener.  Reading drains a listener's buffer into its
`received` log in publication order. -/

/-- Modelled from the spec: an Event (§3) — type plus metadata, immutable
once published. -/
structure Event where
  ty : List Char
  metadata : List (List Char × List Char)
deriving DecidableEq, Repr

/-- Modelled from the spec: one listener's state on the bus — its bounded
buffer, its drop counter, and the events it has read so far. -/
structure Listener where
  capacity : Nat
  buffer : List Event
  dropped : Nat
  received : List Event
deriving DecidableEq, Repr

/-- A freshly subscribed listener with buffer capacity `c`. -/
def mkListener (c : Nat) : Listener := ⟨c, [], 0, []⟩

/-- Modelled from the spec: delivery of one event to one listener — a
non-blocking send-or-drop: enqueue if the buffer has room, else count a
drop. -/
def publishToListener (e : Event) (l : Listener) : Listener :=
  if l.buffer.length < l.capacity then { l with buffer := l.buffer ++ [e] }
  else { l with dropped := l.dropped + 1 }

/-- Modelled from the spec: `Publish(event)` — delivers to every currently
active listener independently; total, hence it never fails and delivery to
one listener never blocks another. -/
def busPublish (e : Event) (bus : List Listener) : List Listener :=
  bus.map (publishToListener e)

/-- A listener that never reads: it just receives the published sequence. -/
def publishSeq (es : List Event) (l : Listener) : Listener :=
  es.foldl (fun l e => publishToListener e l) l

/-- Reading drains the buffer into the listener's `received` log. -/
def readAll (l : Listener) : Listener :=
  { l with buffer := [], received := l.received ++ l.buffer }

/-- A listener that keeps up: it reads its whole buffer after every
publication. -/
def publishReadSeq (es : List Event) (l : Listener) : Listener :=
  es.foldl (fun l e => readAll (publishToListener e l)) l

/-- Publishing a whole sequence to the bus. -/
def busPublishSeq (es : List Event) (bus : List Listener) : List Listener :=
  es.foldl (fun b e => busPublish e b) bus

theorem publishToListener_inv (e : Event) (l : Listener) :
    (publishToListener e l).capacity = l.capacity
    ∧ ((publishToListener e l).dropped + (publishToListener e l).buffer.length
        = l.dropped + l.buffer.length + 1)
    ∧ (l.buffer.length ≤ l.capacity → (publishToListener e l).buffer.length ≤ l.capacity) := by
  rw [publishToListener]
  split
  · refine ⟨rfl, ?_, ?_⟩
    · simp
      omega
    · intro _
      simp
      omega
  · exact ⟨rfl, by simp [Nat.add_right_comm], fun h => h⟩

theorem publishSeq_inv (es : List Event) (l : Listener)
    (hbuf : l.buffer.length ≤ l.capacity) :
    (publishSeq es l).capacity = l.capacity
    ∧ (publishSeq es l).dropped + (publishSeq es l).buffer.length
        = l.dropped + l.buffer.length + es.length
    ∧ (publishSeq es l).buffer.length ≤ l.capacity := by
  induction es generalizing l with
  | nil => exact ⟨rfl, rfl, hbuf⟩
  | cons e es ih =>
    obtain ⟨hc, hsum, hle⟩ := publishToListener_inv e l
    obtain ⟨ihc, ihsum, ihle⟩ := ih (publishToListener e l) (hc ▸ hle hbuf)
    refine ⟨ihc.trans hc, ?_, hc ▸ ihle⟩
    show (publishSeq es (publishToListener e l)).dropped
        + (publishSeq es (publishToListener e l)).buffer.length = _
    rw [ihsum, hsum]
    simp [List.length_cons]
    omega

theorem publishReadSeq_received (es : List Event) (l : Listener)
    (hbuf : l.buffer = []) (hcap : 1 ≤ l.capacity) :
    (publishReadSeq es l).received = l.received ++ es := by
  induction es generalizing l with
  | nil => simp [publishReadSeq, hbuf]
  | cons e es ih =>
    show (publishReadSeq es (readAll (publishToListener e l))).received = _
    rw [ih (readAll (publishToListener e l)) rfl]
    · rw [readAll]
      dsimp only
      rw [publishToListener, if_pos (by rw [hbuf]; simpa using hcap)]
      dsimp only
      rw [hbuf]
      simp
    · show (publishToListener e l).capacity ≥ 1
      rw [(publishToListener_inv e l).1]
      exact hcap

theorem busPublishSeq_map (es : List Event) (bus : List Listener) :
    busPublishSeq es bus = bus.map (publishSeq es) := by
  induction es generalizing bus with
  | nil =>
    show bus = bus.map (publishSeq [])
    have hps : publishSeq ([] : List Event) = fun l => l := rfl
    rw [hps, List.map_id']
  | cons e es ih =>
    show busPublishSeq es (busPublish e bus) = _
    rw [ih (busPublish e bus), busPublish, List.map_map]
    rfl

/-- C6: on a bus, every listener evolves independently of the others
(`Publish` is a per-listener total map, so a slow listener never blocks the
rest and publishing never fails); a listener of capacity `C` that never
reads ends with at most `C` buffered events and at least `N − C` recorded
drops after `N` publications, while a listener that keeps reading receives
every published event in order. -/
theorem C6_slow_listener_drops (es : List Event) (c : Nat) (l : Listener)
    (bus : List Listener) (hbuf : l.buffer = []) (hcap : 1 ≤ l.capacity) :
    (publishSeq es (mkListener c)).buffer.length ≤ c
    ∧ es.length - c ≤ (publishSeq es (mkListener c)).dropped
    ∧ (publishReadSeq es l).received = l.received ++ es
    ∧ busPublishSeq es bus = bus.map (publishSeq es)
    ∧ (busPublish (⟨"operation".data, []⟩ : Event) bus).length = bus.length := by
  obtain ⟨-, hsum, hle⟩ := publishSeq_inv es (mkListener c) (by simp [mkListener])
  refine ⟨hle, ?_, publishReadSeq_received es l hbuf hcap,
    busPublishSeq_map es bus, by simp [busPublish]⟩
  have h0 : (mkListener c).dropped = 0 := rfl
  have h1 : (mkListener c).buffer.length = 0 := rfl
  have h2 : (mkListener c).capacity = c := rfl
  rw [h0, h1] at hsum
  rw [h2] at hle
  omega

/-- Witness for C6: three events, a capacity-1 listener that never reads and
one that always reads, on a two-listener bus. -/
theorem C6_witness :
    (publishSeq [⟨"a".data, []⟩, ⟨"b".data, []⟩, ⟨"c".data, []⟩]
        (mkListener 1)).buffer.length ≤ 1
    ∧ ([⟨"a".data, []⟩, ⟨"b".data, []⟩, ⟨"c".data, []⟩] : List Event).length - 1
        ≤ (publishSeq [⟨"a".data, []⟩, ⟨"b".data, []⟩, ⟨"c".data, []⟩]
            (mkListener 1)).dropped
    ∧ (publishReadSeq [⟨"a".data, []⟩, ⟨"b".data, []⟩, ⟨"c".data, []⟩]
        (mkListener 2)).received = (mkListener 2).received
          ++ [⟨"a".data, []⟩, ⟨"b".data, []⟩, ⟨"c".data, []⟩]
    ∧ busPublishSeq [⟨"a".data, []⟩, ⟨"b".data, []⟩, ⟨"c".data, []⟩]
        [mkListener 1, mkListener 2]
        = [mkListener 1, mkListener 2].map
            (publishSeq [⟨"a".data, []⟩, ⟨"b".data, []⟩, ⟨"c".data, []⟩])
    ∧ (busPublish (⟨"operation".data, []⟩ : Event)
        [mkListener 1, mkListener 2]).length = [mkListener 1, mkListener 2].length :=
  C6_slow_listener_drops [⟨"a".data, []⟩, ⟨"b".data, []⟩, ⟨"c".data, []⟩] 1
    (mkListener 2) [mkListener 1, mkListener 2] (by decide) (by decide)

end Xlxd
